import Mathlib

/-!
Verification of the orchestration workflow encoded in the notebook
chalk_talk_demo-neo.ipynb (fast.ai on SageMaker chalk-talk demo).

The notebook is sequential glue around external services.  We embed the
decision logic of each stage as executable Lean definitions translated
cell by cell from the source, and prove the spec claims about them:

  - cell-6 : session configuration (bucket name, key naming)
  - cell-8 : bash image build and publish script
  - cell-20: dataset staging against the object store
  - cell-24: ECR image URI used for training
  - cell-26: estimator configuration (hyperparameters, metric rules)
  - cell-27: data location recomputation
  - cell-28..45: sequential execution, fit before compile
  - cell-34: compile output path derivation
-/

namespace ChalkTalk

/-! ## Session configuration (cell-6) -/

/-- cell-6: the fixed S3 key root used by the demo
(the Python variable holding it is the upload target of cell-20). -/
def demoPfx : String := "sagemaker/DEMO-shirts-classification"

/-! ## Dataset staging (cell-20)

cell-20 lists the object store under the key root extended by the
metal-class subfolder, and uploads only when that listing is empty. -/

/-- cell-20: the key queried by list_objects_v2 (the metal subfolder,
not the whole upload target). -/
def metalKey : String := demoPfx ++ "/metal/"

/-- Object-store semantics of a listing filter: a stored key matches a
query when the query string is a prefix of the key. -/
def strHasPfx (p s : String) : Bool := p.data.isPrefixOf s.data

/-- KeyCount of list_objects_v2 over a modelled store (a list of keys):
the number of stored keys the query matches. -/
def keyCountUnder (store : List String) (p : String) : Nat :=
  (store.filter (fun k => strHasPfx p k)).length

/-- The location string both branches of cell-20 produce:
the skip branch builds it with an f-string, and the upload branch
receives it as the return value of Session.upload_data
(the SDK returns the bucket and key root joined as an S3 URI). -/
def s3Loc (bucket : String) : String := "s3://" ++ bucket ++ "/" ++ demoPfx

/-- Keys created by Session.upload_data: each file of the local tree,
relative to the dataset root, placed under the key root. -/
def uploadKeys (localFiles : List String) : List String :=
  localFiles.map (fun f => demoPfx ++ "/" ++ f)

/-- Result of one execution of cell-20: the store afterwards, the
data_location string, and whether the upload branch ran. -/
structure StagingResult where
  store : List String
  location : String
  uploaded : Bool
deriving DecidableEq, Repr

/-- cell-20: skip the upload iff the listing under the metal subfolder
key returned at least one object; otherwise upload the local tree. -/
def stageDataset (bucket : String) (store localFiles : List String) :
    StagingResult :=
  if 0 < keyCountUnder store metalKey then
    { store := store, location := s3Loc bucket, uploaded := false }
  else
    { store := store ++ uploadKeys localFiles
    , location := s3Loc bucket
    , uploaded := true }

/-! ## Image build and publish (cell-8)

cell-8 is a bash script: fetch the Dockerfile, resolve the caller
identity (exit 255 on failure), ensure the ECR repository exists, log
in to two registries, then for each architecture in gpu, cpu build,
tag and push the image. -/

/-- cell-8: IMAGE. -/
def imageBaseName : String := "sagemaker-fastai"

/-- cell-8: FASTAI_VERSION. -/
def fastaiVersion : String := "1.0"

/-- cell-8: PY_VERSION. -/
def pyVersion : String := "py36"

/-- cell-8: the architecture loop list, in loop order. -/
def archList : List String := ["gpu", "cpu"]

/-- cell-8: TAG, the composite tag built inside the loop. -/
def buildTag (arch : String) : String :=
  fastaiVersion ++ "-" ++ arch ++ "-" ++ pyVersion

/-- cell-8: FULLNAME, the fully qualified registry URI for a tag
(also the shape of the image URI rebuilt later in cell-24). -/
def ecrImageUri (account region image tag : String) : String :=
  account ++ ".dkr.ecr." ++ region ++ ".amazonaws.com/" ++ image ++ ":" ++ tag

/-- External outcomes the cell-8 script branches on. -/
structure BuildEnv where
  account : String
  region : String
  identityOk : Bool
  repoExists : Bool
deriving DecidableEq, Repr

/-- Observable actions of the cell-8 script, in execution order. -/
inductive BuildEvent where
  | fetchDockerfile : BuildEvent
  | getCallerIdentity : BuildEvent
  | describeRepos : BuildEvent
  | createRepo : BuildEvent
  | ecrLogin : BuildEvent
  | ecrLoginBase : BuildEvent
  | buildImage (tag : String) : BuildEvent
  | tagImage (fullname : String) : BuildEvent
  | pushImage (fullname : String) : BuildEvent
deriving DecidableEq, Repr

/-- cell-8 as a trace semantics: the exit status of the cell and the
actions it performed, in order.  The identity check is the only branch
that aborts (exit 255); the repository is created only when the
describe call reported it missing; the loop then builds, tags and
pushes once per architecture. -/
def buildScript (env : BuildEnv) : Nat × List BuildEvent :=
  if env.identityOk then
    (0,
      [BuildEvent.fetchDockerfile, BuildEvent.getCallerIdentity,
       BuildEvent.describeRepos]
      ++ (if env.repoExists then [] else [BuildEvent.createRepo])
      ++ [BuildEvent.ecrLogin, BuildEvent.ecrLoginBase]
      ++ archList.flatMap (fun arch =>
          [BuildEvent.buildImage (buildTag arch),
           BuildEvent.tagImage
             (ecrImageUri env.account env.region imageBaseName (buildTag arch)),
           BuildEvent.pushImage
             (ecrImageUri env.account env.region imageBaseName (buildTag arch))]))
  else
    (255, [BuildEvent.fetchDockerfile, BuildEvent.getCallerIdentity])

/-- The registry URIs pushed during a run, in push order. -/
def pushedOf (evs : List BuildEvent) : List String :=
  evs.filterMap (fun e =>
    match e with
    | BuildEvent.pushImage f => some f
    | _ => none)

/-! ## Estimator configuration (cells 23, 24, 26) -/

/-- cell-24: the tag literal inlined into the training image URI. -/
def estimatorTag : String := "1.0-gpu-py36"

/-- cell-24: image_name, the ECR URI handed to the estimator,
parameterised by the account and region resolved in cell-23. -/
def estimatorImageName (account region : String) : String :=
  ecrImageUri account region imageBaseName estimatorTag

/-- The PyTorch estimator arguments of cell-26 that the claims are
about. -/
structure EstimatorConfig where
  entryPoint : String
  trainInstanceCount : Nat
  trainInstanceType : String
  imageName : String
  frameworkVersion : String
  hyperparameters : List (String × Nat)
  metricDefinitions : List (String × String)
deriving DecidableEq, Repr

/-- cell-26: the estimator as constructed in the notebook. -/
def estimator (account region : String) : EstimatorConfig :=
  { entryPoint := "src/shirts-neo/train.py"
  , trainInstanceCount := 1
  , trainInstanceType := "ml.p3.2xlarge"
  , imageName := estimatorImageName account region
  , frameworkVersion := "1"
  , hyperparameters := [("epochs", 6), ("batch-size", 64)]
  , metricDefinitions :=
      [("valid:loss",
        "#quality_metric: host=\\S+, epoch=\\S+, valid_loss=(\\S+)"),
       ("train:loss",
        "#quality_metric: host=\\S+, epoch=\\S+, train_loss=(\\S+)"),
       ("valid:accuracy",
        "#quality_metric: host=\\S+, epoch=\\S+, accuracy=(\\S+)")] }

/-! ## Data location at fit time (cells 20, 27, 28) -/

/-- Notebook variables relevant to the staging and training cells. -/
structure NbState where
  store : List String
  dataLocation : String
deriving DecidableEq, Repr

/-- cell-20 as a notebook-state transformer. -/
def runCell20 (bucket : String) (localFiles : List String)
    (st : NbState) : NbState :=
  let r := stageDataset bucket st.store localFiles
  { store := r.store, dataLocation := r.location }

/-- cell-27: data_location is reassigned unconditionally from the
bucket and key root. -/
def runCell27 (bucket : String) (st : NbState) : NbState :=
  { st with dataLocation := s3Loc bucket }

/-- The location string cell-28 passes to estimator.fit: the value of
data_location after cells 20 and 27 have run in order. -/
def fitLocation (bucket : String) (localFiles : List String)
    (st : NbState) : String :=
  (runCell27 bucket (runCell20 bucket localFiles st)).dataLocation

/-! ## Sequential cell execution: fit before compile (cells 28..45)

The notebook cells after staging run strictly in order, and a cell
that raises aborts the run: nothing after it executes.  The blocking
estimator.fit call of cell-28 is the call whose outcome the later
cells depend on; it raises exactly when the remote job ends in a
non-success terminal state. -/

/-- Terminal states the blocking fit call can observe. -/
inductive JobTerminal where
  | completed : JobTerminal
  | failed : JobTerminal
  | stopped : JobTerminal
deriving DecidableEq, Repr

/-- The notebook cells from training onward, as pipeline steps. -/
inductive Step where
  | fitStep : Step
  | metricsStep : Step
  | compileStep : Step
  | deployStep : Step
  | predictStep : Step
  | deleteEndpointStep : Step
deriving DecidableEq, Repr

/-- cell-28: estimator.fit raises iff the remote job did not complete
successfully. -/
def fitRaises (t : JobTerminal) : Bool :=
  match t with
  | JobTerminal.completed => false
  | JobTerminal.failed => true
  | JobTerminal.stopped => true

/-- Whether a step raises, given the training outcome.  Only the fit
call branches on the remote job state in this flow. -/
def raisesIn (t : JobTerminal) (s : Step) : Bool :=
  match s with
  | Step.fitStep => fitRaises t
  | _ => false

/-- Sequential execution: run steps in order; a raising step is the
last one invoked, everything after it is never invoked. -/
def runSteps (t : JobTerminal) : List Step → List Step
  | [] => []
  | s :: rest => if raisesIn t s then [s] else s :: runSteps t rest

/-- The step order of cells 28, 31, 34, 37, 42, 45. -/
def notebookSteps : List Step :=
  [Step.fitStep, Step.metricsStep, Step.compileStep,
   Step.deployStep, Step.predictStep, Step.deleteEndpointStep]

/-- The steps actually invoked in a run whose training job ends in the
given terminal state. -/
def notebookRun (t : JobTerminal) : List Step :=
  runSteps t notebookSteps

/-! ## Compile output path (cell-34)

cell-34 derives the compilation output path from the estimator output
path by splitting on the slash, dropping the last segment and joining
back.  We embed the split and join character by character. -/

/-- Splitting a character list at every slash, as Python str.split. -/
def splitSlash : List Char → List (List Char)
  | [] => [[]]
  | c :: cs =>
    if c = '/' then [] :: splitSlash cs
    else
      match splitSlash cs with
      | [] => [[c]]
      | g :: gs => (c :: g) :: gs

/-- Joining with slashes, as the Python slash-join. -/
def joinSlash : List (List Char) → List Char
  | [] => []
  | [g] => g
  | g :: gs => g ++ '/' :: joinSlash gs

/-- cell-34: output_path, the artifact path with the final
slash-separated segment removed. -/
def outputPathParent (s : String) : String :=
  String.mk (joinSlash (splitSlash s.data).dropLast)

/-! ## Metric extraction (cell-26, rule valid:accuracy)

The valid:accuracy rule applies the pattern

  #quality_metric: host=\S+, epoch=\S+, accuracy=(\S+)

to each log line and records the first capture group of the first
match.  We embed the regex-engine behaviour on exactly this pattern:
leftmost match position, greedy nonspace runs with backtracking into
the following literal, and a final greedy nonspace capture. -/

/-- Python regex whitespace class (the complement of backslash-S). -/
def isSpc (c : Char) : Bool :=
  c = ' ' || c = '\t' || c = '\n' || c = '\r' || c = '\x0b' || c = '\x0c'

/-- Match a literal: strip it from the front or fail. -/
def dropLit : List Char → List Char → Option (List Char)
  | [], cs => some cs
  | _ :: _, [] => none
  | l :: ls, c :: cs => if l = c then dropLit ls cs else none

/-- Length of the maximal nonspace run at the front. -/
def nonSpcRunLen (cs : List Char) : Nat :=
  (cs.takeWhile (fun c => !isSpc c)).length

/-- The candidate splits for a greedy nonspace-plus: take k characters
for k from the maximal run length down to 1, pairing what was taken
with the rest. -/
def splitsDesc (cs : List Char) : List (List Char × List Char) :=
  (List.range (nonSpcRunLen cs)).reverse.map
    (fun i => (cs.take (i + 1), cs.drop (i + 1)))

/-- The three literal pieces of the valid:accuracy pattern. -/
def accLit1 : List Char := "#quality_metric: host=".data

/-- Literal between the host and epoch runs. -/
def accLit2 : List Char := ", epoch=".data

/-- Literal between the epoch run and the capture. -/
def accLit3 : List Char := ", accuracy=".data

/-- Attempt the whole pattern at one position: literal, greedy
nonspace run backtracking into the next literal, twice, then the
greedy nonspace capture (nonempty).  Returns the captured characters. -/
def matchAt (cs : List Char) : Option (List Char) :=
  match dropLit accLit1 cs with
  | none => none
  | some r1 =>
    (splitsDesc r1).findSome? (fun s1 =>
      match dropLit accLit2 s1.2 with
      | none => none
      | some r2 =>
        (splitsDesc r2).findSome? (fun s2 =>
          match dropLit accLit3 s2.2 with
          | none => none
          | some r3 =>
            let cap := r3.takeWhile (fun c => !isSpc c)
            if cap.isEmpty then none else some cap))

/-- Leftmost search: try the pattern at each position, left to right. -/
def searchAcc : List Char → Option (List Char)
  | [] => matchAt []
  | c :: cs =>
    match matchAt (c :: cs) with
    | some v => some v
    | none => searchAcc cs

/-- The capture the valid:accuracy rule extracts from one log line. -/
def extractAccuracy (line : String) : Option String :=
  (searchAcc line.data).map String.mk

/-- The metric rows one log line contributes under the valid:accuracy
rule: one row holding the capture when the pattern matches, none
otherwise. -/
def accuracyRows (line : String) : List String :=
  match extractAccuracy line with
  | some v => [v]
  | none => []

/-! ## Theorems -/

/-- C3: every invocation of the build stage that passes identity
resolution pushes exactly two registry URIs, one per architecture
token of the loop, each ending in the composite tag
version-arch-runtime; the two pushed URIs share the account, region,
image name, version and runtime and differ only in the architecture
token. -/
theorem build_pushes_two_tags (env : BuildEnv)
    (h : env.identityOk = true) :
    pushedOf (buildScript env).2 =
      archList.map (fun arch =>
        ecrImageUri env.account env.region imageBaseName
          (fastaiVersion ++ "-" ++ arch ++ "-" ++ pyVersion))
    ∧ (pushedOf (buildScript env).2).length = 2
    ∧ archList = ["gpu", "cpu"]
    ∧ buildTag "gpu" = "1.0-gpu-py36"
    ∧ buildTag "cpu" = "1.0-cpu-py36" := by
  refine ⟨?_, ?_, rfl, by decide, by decide⟩ <;>
    by_cases hr : env.repoExists <;>
      simp [buildScript, h, hr, pushedOf, archList, buildTag]

/-- Witness for C3 at a concrete environment. -/
theorem build_pushes_two_tags_witness :
    pushedOf (buildScript ⟨"123456789012", "us-west-2", true, true⟩).2 =
      archList.map (fun arch =>
        ecrImageUri "123456789012" "us-west-2" imageBaseName
          (fastaiVersion ++ "-" ++ arch ++ "-" ++ pyVersion))
    ∧ (pushedOf (buildScript ⟨"123456789012", "us-west-2", true, true⟩).2).length = 2
    ∧ archList = ["gpu", "cpu"]
    ∧ buildTag "gpu" = "1.0-gpu-py36"
    ∧ buildTag "cpu" = "1.0-cpu-py36" :=
  build_pushes_two_tags ⟨"123456789012", "us-west-2", true, true⟩ rfl

/-- C4: the compile step is invoked only when the blocking fit call
returned from a successful terminal state; for a failed or stopped
job the run ends at the fit step and the compile step is never
invoked; on success the steps run in order, fit strictly before
compile. -/
theorem compile_only_after_fit_success (t : JobTerminal) :
    (Step.compileStep ∈ notebookRun t → t = JobTerminal.completed)
    ∧ (t ≠ JobTerminal.completed → notebookRun t = [Step.fitStep])
    ∧ (t ≠ JobTerminal.completed → Step.compileStep ∉ notebookRun t)
    ∧ notebookRun JobTerminal.completed =
        [Step.fitStep, Step.metricsStep, Step.compileStep,
         Step.deployStep, Step.predictStep, Step.deleteEndpointStep] := by
  cases t <;> exact by decide

/-- Witness for C4: a failed training job never reaches compilation. -/
theorem compile_only_after_fit_success_witness :
    Step.compileStep ∉ notebookRun JobTerminal.failed :=
  (compile_only_after_fit_success JobTerminal.failed).2.2.1 (by decide)

/-- C5: the hyperparameter mapping submitted with the training job
carries exactly the keys epochs and batch-size, bound to 6 and 64,
and nothing else. -/
theorem hyperparameters_exact (account region : String) :
    (estimator account region).hyperparameters.map Prod.fst =
      ["epochs", "batch-size"]
    ∧ (estimator account region).hyperparameters.lookup "epochs" = some 6
    ∧ (estimator account region).hyperparameters.lookup "batch-size" = some 64
    ∧ (estimator account region).hyperparameters.length = 2 := by
  exact ⟨rfl, rfl, rfl, rfl⟩

/-- C7: when identity resolution fails, the build cell exits with
status 255 (non-zero) having performed only the Dockerfile fetch and
the identity call: no repository creation, login, build, tag or push
is attempted. -/
theorem identity_failure_aborts (env : BuildEnv)
    (h : env.identityOk = false) :
    buildScript env =
      (255, [BuildEvent.fetchDockerfile, BuildEvent.getCallerIdentity])
    ∧ (buildScript env).1 ≠ 0 := by
  obtain ⟨a, r, io, re⟩ := env
  simp only at h
  subst h
  refine ⟨rfl, ?_⟩
  show (255 : Nat) ≠ 0
  decide

/-- Witness for C7 at a concrete environment. -/
theorem identity_failure_aborts_witness :
    buildScript ⟨"123456789012", "us-west-2", false, true⟩ =
      (255, [BuildEvent.fetchDockerfile, BuildEvent.getCallerIdentity])
    ∧ (buildScript ⟨"123456789012", "us-west-2", false, true⟩).1 ≠ 0 :=
  identity_failure_aborts ⟨"123456789012", "us-west-2", false, true⟩ rfl

/-- C9: whatever staging did, the location handed to estimator.fit is
the one cell-27 recomputes unconditionally from the bucket and the
key root. -/
theorem fit_location_recomputed (bucket : String)
    (localFiles : List String) (st : NbState) :
    fitLocation bucket localFiles st = "s3://" ++ bucket ++ "/" ++ demoPfx
    ∧ fitLocation bucket localFiles st = s3Loc bucket :=
  ⟨rfl, rfl⟩

/-- C10: the training image URI of cell-24 is the registry URI whose
tag is exactly the composite tag the build loop produced for the gpu
architecture, which differs from the cpu variant also built. -/
theorem estimator_uses_gpu_image (account region : String) :
    (estimator account region).imageName =
      ecrImageUri account region imageBaseName (buildTag "gpu")
    ∧ estimatorTag = buildTag "gpu"
    ∧ buildTag "gpu" ≠ buildTag "cpu"
    ∧ archList = ["gpu", "cpu"] := by
  have ht : estimatorTag = buildTag "gpu" := by decide
  refine ⟨?_, ht, by decide, rfl⟩
  show ecrImageUri account region imageBaseName estimatorTag =
    ecrImageUri account region imageBaseName (buildTag "gpu")
  rw [ht]

/-- C1 counterexample: an object exists under the upload target key
root (in its sport subfolder), yet staging still uploads, so the
claimed equivalence between skipping and the target key root being
non-empty is false at this input. -/
theorem staging_skip_iff_target_counterexample :
    ¬ (((stageDataset "mybucket"
          ["sagemaker/DEMO-shirts-classification/sport/a.jpg"]
          ["metal/x.jpg", "sport/a.jpg"]).uploaded = false)
        ↔ 0 < keyCountUnder
            ["sagemaker/DEMO-shirts-classification/sport/a.jpg"] demoPfx) := by
  decide

/-- A list is a Boolean prefix of itself followed by anything. -/
theorem isPrefixOf_append_self (l r : List Char) :
    l.isPrefixOf (l ++ r) = true := by
  induction l with
  | nil => simp [List.isPrefixOf]
  | cons a l ih => simp [List.isPrefixOf, ih]

/-- A Boolean prefix can be completed to the whole list. -/
theorem exists_append_of_isPrefixOf (l t : List Char)
    (h : l.isPrefixOf t = true) : ∃ r, l ++ r = t := by
  induction l generalizing t with
  | nil => exact ⟨t, rfl⟩
  | cons a l ih =>
    cases t with
    | nil => simp [List.isPrefixOf] at h
    | cons b t =>
      simp only [List.isPrefixOf, Bool.and_eq_true, beq_iff_eq] at h
      obtain ⟨hab, hlt⟩ := h
      subst hab
      obtain ⟨r, hr⟩ := ih t hlt
      exact ⟨r, by rw [List.cons_append, hr]⟩

/-- C1 (amended): staging skips the upload iff the listing under the
metal-subfolder key of the target key root is non-empty; on skip the
store is untouched and the reused location string is returned; on an
empty listing the local tree is uploaded under the target key root
and the resulting location is returned. -/
theorem staging_skip_iff_metal_objects (bucket : String)
    (store localFiles : List String) :
    ((stageDataset bucket store localFiles).uploaded = false
      ↔ 0 < keyCountUnder store metalKey)
    ∧ (0 < keyCountUnder store metalKey →
        stageDataset bucket store localFiles =
          { store := store, location := s3Loc bucket, uploaded := false })
    ∧ (keyCountUnder store metalKey = 0 →
        stageDataset bucket store localFiles =
          { store := store ++ uploadKeys localFiles
          , location := s3Loc bucket
          , uploaded := true }) := by
  by_cases h : 0 < keyCountUnder store metalKey
  · exact ⟨by simp [stageDataset, h], fun _ => by simp [stageDataset, h],
      fun h0 => absurd h (by omega)⟩
  · exact ⟨by simp [stageDataset, h], fun hp => absurd hp h,
      fun _ => by simp [stageDataset, h]⟩

/-- Witness for C1 (amended) at a store already holding a metal
object: staging skips and reuses the location. -/
theorem staging_skip_iff_metal_objects_witness :
    stageDataset "b" ["sagemaker/DEMO-shirts-classification/metal/a.jpg"]
        ["metal/x.jpg"] =
      { store := ["sagemaker/DEMO-shirts-classification/metal/a.jpg"]
      , location := s3Loc "b"
      , uploaded := false } :=
  (staging_skip_iff_metal_objects "b"
    ["sagemaker/DEMO-shirts-classification/metal/a.jpg"]
    ["metal/x.jpg"]).2.1 (by decide)

/-- C2: once the store holds an object under the target key root and
the local tree has a metal-class file (as the demo dataset does), a
second staging run performs no upload and returns the same location
string as the first. -/
theorem staging_second_run_skips (bucket : String)
    (store localFiles : List String)
    (hpre : 0 < keyCountUnder store demoPfx)
    (hmetal : ∃ f ∈ localFiles, strHasPfx "metal/" f = true) :
    (stageDataset bucket
        (stageDataset bucket store localFiles).store localFiles).uploaded
      = false
    ∧ (stageDataset bucket
        (stageDataset bucket store localFiles).store localFiles).location
      = (stageDataset bucket store localFiles).location := by
  by_cases h : 0 < keyCountUnder store metalKey
  · constructor <;> simp [stageDataset, h]
  · obtain ⟨f, hfL, hf⟩ := hmetal
    obtain ⟨t, ht⟩ : ∃ t, "metal/".data ++ t = f.data :=
      exists_append_of_isPrefixOf _ _ hf
    have hcat : (("/" : String).data : List Char) ++ "metal/".data =
        "/metal/".data := by decide
    have hdata : (demoPfx ++ "/" ++ f).data = metalKey.data ++ t := by
      simp only [metalKey, String.data_append, ← ht, List.append_assoc, hcat]
      simp
    have hkey : strHasPfx metalKey (demoPfx ++ "/" ++ f) = true := by
      rw [strHasPfx, hdata]
      exact isPrefixOf_append_self _ _
    have hmem : (demoPfx ++ "/" ++ f) ∈ store ++ uploadKeys localFiles :=
      List.mem_append_right _
        (List.mem_map_of_mem (fun g => demoPfx ++ "/" ++ g) hfL)
    have hpos : 0 < keyCountUnder (store ++ uploadKeys localFiles) metalKey :=
      List.length_pos_of_mem (List.mem_filter.mpr ⟨hmem, hkey⟩)
    constructor <;> simp [stageDataset, h, hpos]

/-- Witness for C2 at a concrete store and local tree. -/
theorem staging_second_run_skips_witness :
    (stageDataset "b"
        (stageDataset "b"
          ["sagemaker/DEMO-shirts-classification/metal/old.jpg"]
          ["metal/x.jpg", "sport/y.jpg"]).store
        ["metal/x.jpg", "sport/y.jpg"]).uploaded = false
    ∧ (stageDataset "b"
        (stageDataset "b"
          ["sagemaker/DEMO-shirts-classification/metal/old.jpg"]
          ["metal/x.jpg", "sport/y.jpg"]).store
        ["metal/x.jpg", "sport/y.jpg"]).location
      = (stageDataset "b"
          ["sagemaker/DEMO-shirts-classification/metal/old.jpg"]
          ["metal/x.jpg", "sport/y.jpg"]).location :=
  staging_second_run_skips "b"
    ["sagemaker/DEMO-shirts-classification/metal/old.jpg"]
    ["metal/x.jpg", "sport/y.jpg"] (by decide) (by decide)

/-- Splitting never yields the empty list of groups. -/
theorem splitSlash_ne_nil (cs : List Char) : splitSlash cs ≠ [] := by
  induction cs with
  | nil => simp [splitSlash]
  | cons c cs ih =>
    simp only [splitSlash]
    split
    · simp
    · cases h : splitSlash cs with
      | nil => simp
      | cons g gs => simp

/-- Joining the groups of a split gives back the characters. -/
theorem joinSlash_splitSlash (cs : List Char) :
    joinSlash (splitSlash cs) = cs := by
  induction cs with
  | nil => rfl
  | cons c cs ih =>
    by_cases hc : c = '/'
    · subst hc
      simp only [splitSlash, if_pos rfl]
      cases h : splitSlash cs with
      | nil => exact absurd h (splitSlash_ne_nil cs)
      | cons g gs =>
        rw [h] at ih
        show ([] : List Char) ++ '/' :: joinSlash (g :: gs) = '/' :: cs
        rw [List.nil_append, ih]
    · simp only [splitSlash, if_neg hc]
      cases h : splitSlash cs with
      | nil => exact absurd h (splitSlash_ne_nil cs)
      | cons g gs =>
        rw [h] at ih
        cases gs with
        | nil =>
          show c :: g = c :: cs
          rw [show joinSlash [g] = g from rfl] at ih
          rw [ih]
        | cons g2 gs2 =>
          show (c :: g) ++ '/' :: joinSlash (g2 :: gs2) = c :: cs
          rw [List.cons_append, ← ih]
          rfl

/-- A slash-free suffix forms its own final group of the split. -/
theorem splitSlash_all_nonslash (seg : List Char)
    (h : ∀ c ∈ seg, c ≠ '/') : splitSlash seg = [seg] := by
  induction seg with
  | nil => rfl
  | cons c cs ih =>
    have hc : c ≠ '/' := h c (List.mem_cons_self c cs)
    have ih2 := ih (fun d hd => h d (List.mem_cons_of_mem c hd))
    simp only [splitSlash, if_neg hc, ih2]

/-- Appending a slash and a slash-free segment appends one group. -/
theorem splitSlash_append_slash (xs seg : List Char)
    (h : ∀ c ∈ seg, c ≠ '/') :
    splitSlash (xs ++ '/' :: seg) = splitSlash xs ++ [seg] := by
  induction xs with
  | nil =>
    show splitSlash ('/' :: seg) = splitSlash [] ++ [seg]
    simp only [splitSlash, if_pos rfl, splitSlash_all_nonslash seg h]
    rfl
  | cons x xs ih =>
    by_cases hx : x = '/'
    · subst hx
      show splitSlash ('/' :: (xs ++ '/' :: seg)) =
        splitSlash ('/' :: xs) ++ [seg]
      simp [splitSlash, ih]
    · show splitSlash (x :: (xs ++ '/' :: seg)) =
        splitSlash (x :: xs) ++ [seg]
      simp only [splitSlash, if_neg hx, ih]
      cases h2 : splitSlash xs with
      | nil => exact absurd h2 (splitSlash_ne_nil xs)
      | cons g gs => simp

/-- C8: the derived compile output path of cell-34 is the artifact
path with its final slash-separated segment removed: on any path
ending in a slash followed by a slash-free segment, the derivation
returns exactly the part before that final slash. -/
theorem compile_output_path_parent (pre seg : String)
    (h : ∀ c ∈ seg.data, c ≠ '/') :
    outputPathParent (pre ++ "/" ++ seg) = pre := by
  show String.mk (joinSlash (splitSlash (pre ++ "/" ++ seg).data).dropLast) = pre
  have hd : (pre ++ "/" ++ seg).data = pre.data ++ '/' :: seg.data := by
    simp [String.data_append]
  rw [hd, splitSlash_append_slash _ _ h, List.dropLast_concat,
    joinSlash_splitSlash]

/-- Witness for C8 at a concrete artifact path: the job-output URI
loses its final segment. -/
theorem compile_output_path_parent_witness :
    outputPathParent ("s3://bucket/fastai-shirts-2018" ++ "/" ++ "output") =
      "s3://bucket/fastai-shirts-2018" :=
  compile_output_path_parent "s3://bucket/fastai-shirts-2018" "output"
    (by decide)

/-- C6 counterexample: a log line that ends in accuracy=0.912 but
lacks the quality-metric preamble the rule pattern requires yields no
row at all, not exactly one row. -/
theorem accuracy_rule_bare_line_counterexample :
    accuracyRows "error rate accuracy=0.912" = []
    ∧ "accuracy=0.912".data.isSuffixOf "error rate accuracy=0.912".data
        = true := by
  decide

/-- Stripping a literal from itself followed by anything succeeds. -/
theorem dropLit_append (l r : List Char) : dropLit l (l ++ r) = some r := by
  induction l with
  | nil => rfl
  | cons a l ih => simp [dropLit, ih]

/-- A literal never matches text starting with a different head. -/
theorem dropLit_head_ne (a b : Char) (ls cs : List Char) (h : a ≠ b) :
    dropLit (a :: ls) (b :: cs) = none := by
  simp [dropLit, h]

/-- takeWhile passes over a block it wholly accepts. -/
theorem takeWhile_append_of_all (p : Char → Bool) (l m : List Char)
    (h : ∀ c ∈ l, p c = true) :
    (l ++ m).takeWhile p = l ++ m.takeWhile p := by
  induction l with
  | nil => rfl
  | cons a l ih =>
    have ha := h a (List.mem_cons_self a l)
    simp [List.takeWhile_cons, ha,
      ih (fun c hc => h c (List.mem_cons_of_mem a hc))]

/-- takeWhile keeps a list it wholly accepts. -/
theorem takeWhile_eq_self_of_all (p : Char → Bool) (l : List Char)
    (h : ∀ c ∈ l, p c = true) : l.takeWhile p = l := by
  have h2 := takeWhile_append_of_all p l [] h
  simpa using h2

/-- The maximal nonspace run over a nonspace token followed by a
comma-space block covers the token and the comma. -/
theorem nonSpcRunLen_token (h rest : List Char)
    (hns : ∀ c ∈ h, isSpc c = false) :
    nonSpcRunLen (h ++ ',' :: ' ' :: rest) = h.length + 1 := by
  unfold nonSpcRunLen
  rw [takeWhile_append_of_all _ _ _ (fun c hc => by rw [hns c hc]; rfl)]
  have hc1 : (!isSpc ',') = true := by decide
  have hc2 : (!isSpc ' ') = false := by decide
  rw [List.takeWhile_cons, List.takeWhile_cons]
  simp [hc1, hc2]

/-- The greedy split candidates over a nonspace token followed by a
comma-space block: first the token with the comma, then the token
alone, then shorter candidates. -/
theorem splitsDesc_token (h rest : List Char) (m : Nat)
    (hlen : h.length = m + 1)
    (hns : ∀ c ∈ h, isSpc c = false) :
    splitsDesc (h ++ ',' :: ' ' :: rest) =
      (h ++ [','], ' ' :: rest) :: (h, ',' :: ' ' :: rest) ::
        (List.range m).reverse.map
          (fun i => ((h ++ ',' :: ' ' :: rest).take (i + 1),
                     (h ++ ',' :: ' ' :: rest).drop (i + 1))) := by
  unfold splitsDesc
  rw [nonSpcRunLen_token h rest hns, hlen]
  have hrev : (List.range (m + 1 + 1)).reverse =
      (m + 1) :: m :: (List.range m).reverse := by
    rw [List.range_succ, List.range_succ]
    simp
  rw [hrev, List.map_cons, List.map_cons]
  have e1 : m + 1 + 1 = h.length + 1 := by omega
  have e2 : m + 1 = h.length := hlen.symm
  rw [e1, e2, List.take_append 1, List.drop_append 1, List.take_left,
    List.drop_left]
  rfl

/-- If the pattern matches at the start, the leftmost search reports
that match. -/
theorem searchAcc_of_matchAt (cs v : List Char) (h : matchAt cs = some v) :
    searchAcc cs = some v := by
  cases cs with
  | nil => simpa [searchAcc] using h
  | cons c cs => simp [searchAcc, h]

/-- Backtracking behaviour of the valid:accuracy pattern on a
well-formed quality-metric line: at the start of the line the match
succeeds and captures exactly the nonspace value after the accuracy
literal. -/
theorem matchAt_quality (hh ee cap : List Char)
    (hne : hh ≠ []) (hns : ∀ c ∈ hh, isSpc c = false)
    (ene : ee ≠ []) (ens : ∀ c ∈ ee, isSpc c = false)
    (cne : cap ≠ []) (cns : ∀ c ∈ cap, isSpc c = false) :
    matchAt (accLit1 ++ (hh ++ (accLit2 ++ (ee ++ (accLit3 ++ cap)))))
      = some cap := by
  obtain ⟨m, hm⟩ : ∃ m, hh.length = m + 1 := by
    cases hh with
    | nil => exact absurd rfl hne
    | cons a l => exact ⟨l.length, rfl⟩
  obtain ⟨k, hk⟩ : ∃ k, ee.length = k + 1 := by
    cases ee with
    | nil => exact absurd rfl ene
    | cons a l => exact ⟨l.length, rfl⟩
  have ha2 : accLit2 = ',' :: ' ' :: "epoch=".data := by decide
  have ha3 : accLit3 = ',' :: ' ' :: "accuracy=".data := by decide
  have hfail2 : ∀ r : List Char, dropLit accLit2 (' ' :: r) = none := by
    intro r; rw [ha2]; exact dropLit_head_ne _ _ _ _ (by decide)
  have hfail3 : ∀ r : List Char, dropLit accLit3 (' ' :: r) = none := by
    intro r; rw [ha3]; exact dropLit_head_ne _ _ _ _ (by decide)
  have hcap : cap.takeWhile (fun c => !isSpc c) = cap :=
    takeWhile_eq_self_of_all _ _ (fun c hc => by rw [cns c hc]; rfl)
  have hcapE : cap.isEmpty = false := by
    cases cap with
    | nil => exact absurd rfl cne
    | cons a l => rfl
  have hep : "epoch=".data = ['e', 'p', 'o', 'c', 'h', '='] := by decide
  have hac : "accuracy=".data =
      ['a', 'c', 'c', 'u', 'r', 'a', 'c', 'y', '='] := by decide
  have hsh1 : accLit2 ++ (ee ++ (accLit3 ++ cap)) =
      ',' :: ' ' :: ("epoch=".data ++ (ee ++ (accLit3 ++ cap))) := by
    simp [ha2]
  have hsh3 : accLit3 ++ cap =
      ',' :: ' ' :: (['a', 'c', 'c', 'u', 'r', 'a', 'c', 'y', '='] ++ cap) := by
    simp [ha3, hac]
  have hgood2 : ∀ r : List Char,
      dropLit accLit2 (',' :: ' ' :: (['e', 'p', 'o', 'c', 'h', '='] ++ r))
        = some r := by
    intro r
    have hx : ',' :: ' ' :: (['e', 'p', 'o', 'c', 'h', '='] ++ r)
        = accLit2 ++ r := by simp [ha2, hep]
    rw [hx, dropLit_append]
  have hgood3 : ∀ r : List Char,
      dropLit accLit3
          (',' :: ' ' :: (['a', 'c', 'c', 'u', 'r', 'a', 'c', 'y', '='] ++ r))
        = some r := by
    intro r
    have hx : ',' :: ' ' :: (['a', 'c', 'c', 'u', 'r', 'a', 'c', 'y', '='] ++ r)
        = accLit3 ++ r := by simp [ha3, hac]
    rw [hx, dropLit_append]
  unfold matchAt
  simp only [dropLit_append, hsh1]
  rw [splitsDesc_token hh _ m hm hns]
  simp only [List.findSome?_cons, hfail2]
  simp only [hgood2, hsh3]
  rw [splitsDesc_token ee _ k hk ens]
  simp only [List.findSome?_cons, hfail3]
  simp only [hgood3, hcap, hcapE]
  rfl

/-- C6 (amended): the valid:accuracy pattern, applied to a log line of
the quality-metric format ending in accuracy=0.912 (preamble, nonspace
host token, nonspace epoch token, then the accuracy literal and the
value), yields exactly one metric row whose captured value is the
string 0.912. -/
theorem accuracy_rule_quality_line (host epoch : String)
    (hne : host.data ≠ []) (hns : ∀ c ∈ host.data, isSpc c = false)
    (ene : epoch.data ≠ []) (ens : ∀ c ∈ epoch.data, isSpc c = false) :
    accuracyRows ("#quality_metric: host=" ++ host ++ ", epoch=" ++ epoch
        ++ ", accuracy=0.912") = ["0.912"] := by
  have hsplit : (", accuracy=0.912" : String).data =
      ", accuracy=".data ++ "0.912".data := by decide
  have hdata : ("#quality_metric: host=" ++ host ++ ", epoch=" ++ epoch
        ++ ", accuracy=0.912").data =
      accLit1 ++ (host.data ++ (accLit2 ++ (epoch.data ++
        (accLit3 ++ "0.912".data)))) := by
    simp only [String.data_append, hsplit, List.append_assoc,
      accLit1, accLit2, accLit3]
    rfl
  have hmatch := matchAt_quality host.data epoch.data "0.912".data
    hne hns ene ens (by decide) (by decide)
  unfold accuracyRows extractAccuracy
  rw [hdata, searchAcc_of_matchAt _ _ hmatch]
  rfl

/-- Witness for C6 (amended) at the concrete scenario line. -/
theorem accuracy_rule_quality_line_witness :
    accuracyRows "#quality_metric: host=algo-1, epoch=3, accuracy=0.912"
      = ["0.912"] := by
  have h := accuracy_rule_quality_line "algo-1" "3"
    (by decide) (by decide) (by decide) (by decide)
  exact h

end ChalkTalk
